import Mathlib

/-!
Verification development for the ilxd block-ingestion pipeline
(`server.go`: `BuildServer`, `handleIncomingBlock`, `processBlock`,
`decodeXthinner`, `fetchBlockTxids`, `requestBlock` and the consensus
waiter goroutine).

The Go code is shallowly embedded as pure Lean functions.  External
collaborators (the blockchain view, the chain-service RPC client, the
mempool decoder, the peer list) are oracle functions collected in an
`Env` record; side effects (ban-score increases, `NewBlock`,
`ConnectBlock`, entry into `processBlock`) are reified as an `Event`
list; the coordinator's three in-memory maps are an explicit
`ServerState` threaded through each function.  A Go runtime panic
(nil-pointer dereference, index out of range) is modelled by the
distinguished result `GoResult.crashed`.
-/

/-- BlockID: a 32-byte content hash over a canonical header
serialization; the pipeline only compares it for equality, so it is
abstracted to a natural number. -/
abbrev BlockID := Nat

/-- Peer identity (libp2p `peer.ID`), abstracted to a natural number. -/
abbrev PeerID := Nat

/-- Transaction ID, a content hash like `BlockID`. -/
abbrev TxID := Nat

/-- Transaction: the pipeline treats transactions as blobs with a
derived ID, so only the ID is modelled. -/
structure Tx where
  txid : TxID
deriving DecidableEq, Repr, Inhabited

/-- The `ID()` method of a transaction. -/
def Tx.ID (t : Tx) : TxID := t.txid

/-- Block header: the pipeline reads `Header.Height` and hashes the
header to obtain the block ID; the hash is abstracted as a stored
field. -/
structure BlockHeader where
  height : Nat
  hashID : BlockID
deriving DecidableEq, Repr, Inhabited

/-- Block: header plus ordered transactions. -/
structure Block where
  header : BlockHeader
  transactions : List Tx
deriving DecidableEq, Repr, Inhabited

/-- The `ID()` method of a block: a content hash over the canonical
header serialization. -/
def Block.ID (b : Block) : BlockID := b.header.hashID

/-- XThinnerBlock: compact block announcement; its `ID()` equals the ID
of the full block it encodes (it carries the same header). -/
structure XThinnerBlock where
  header : BlockHeader
deriving DecidableEq, Repr, Inhabited

/-- The `ID()` method of an xthinner block. -/
def XThinnerBlock.ID (x : XThinnerBlock) : BlockID := x.header.hashID

/-- Subtypes of `blockchain.RuleError` distinguished by
`blockchain.ErrorIs` in `processBlock`. -/
inductive RuleErrKind
  | errInvalidTxRoot
  | errDoesNotConnect
  | otherRuleViolation
deriving DecidableEq, Repr

/-- Classification of the error returned by
`blockchain.CheckConnectBlock`, matching the type switch in
`processBlock`. -/
inductive BlockCheckError
  | orphanBlockError
  | ruleError (kind : RuleErrKind)
  | otherError
deriving DecidableEq, Repr

/-- Go error values surfaced by the embedded functions. -/
inductive GoError
  | blockCheck (e : BlockCheckError)
  | rpcError
  | unexpectedIDCount
  | blockInvalid
  | idParseError
deriving DecidableEq, Repr

/-- Result of running a piece of Go code: a value, a returned error, or
a runtime panic (nil dereference / index out of range). -/
inductive GoResult (α : Type)
  | ok (val : α)
  | err (e : GoError)
  | crashed
deriving DecidableEq, Repr

/-- Observable side effects of the pipeline.  `entered` marks each
invocation of `processBlock` (so that re-entry is observable);
`banscore` is `network.IncreaseBanscore(peer, behavioral, transient)`;
`newBlock` is `engine.NewBlock`; `connectBlock` is
`blockchain.ConnectBlock` from the consensus waiter. -/
inductive Event
  | banscore (p : PeerID) (behavioral transient : Nat)
  | newBlock (id : BlockID)
  | connectBlock (id : BlockID)
  | entered (id : BlockID) (recheck : Bool)
deriving DecidableEq, Repr

/-- Entry of the `orphanBlocks` map (`orphanBlock` struct; the
`firstSeen` wall-clock timestamp is unused by the embedded logic and
omitted). -/
structure OrphanEntry where
  blk : Block
  relayingPeer : PeerID
deriving DecidableEq, Repr

/-- Association-list finite map: remove every binding of a key
(Go `delete(m, k)`; a Go map holds a key at most once, so removing all
occurrences is the map semantics). -/
def eraseKey {β : Type} (k : Nat) (m : List (Nat × β)) : List (Nat × β) :=
  m.filter fun e => decide (e.1 ≠ k)

/-- Association-list finite map: insert or overwrite a binding
(Go `m[k] = v`). -/
def upsert {β : Type} (k : Nat) (v : β) (m : List (Nat × β)) : List (Nat × β) :=
  (k, v) :: eraseKey k m

/-- Association-list finite map: key lookup. -/
def lookupKey {β : Type} (k : Nat) (m : List (Nat × β)) : Option β :=
  (m.find? fun e => e.1 == k).map (·.2)

/-- Membership test of a key (`_, ok := m[k]`). -/
def hasKey {β : Type} (k : Nat) (m : List (Nat × β)) : Bool :=
  (lookupKey k m).isSome

/-- The three in-memory indexes owned by the `Server`. Go map
iteration order is unspecified; the model fixes the list order. -/
structure ServerState where
  orphanBlocks : List (BlockID × OrphanEntry)
  activeInventory : List (BlockID × Block)
  inflightRequests : List BlockID
deriving DecidableEq, Repr

/-- Oracles for the external collaborators of the coordinator:
`blockchain.CheckConnectBlock` (`none` = nil error), the values
returned to `server.go` by the chain-service client
`ChainService.GetBlockTxids` / `GetBlockTxs` (`none` = error return;
neither client bans on its error-return paths except the wrong-length
case of `GetBlockTxs`), `network.Host().Network().Peers()`, and
`mempool.DecodeXthinner` (returns a best-effort block and the missing
indices).  The `GetBlockTxs` client itself is in the sources and is
embedded separately as `chainServiceGetBlockTxs`; `envOfWire` builds an
`Env` whose `getBlockTxs` field is exactly that client's value
component, so the client's own `IncreaseBanscore(p, 50, 0)` on a
wrong-length successful response and its one-transaction-per-requested-
index guarantee on success are accounted at the client layer. -/
structure Env where
  checkConnectBlock : Block → Option BlockCheckError
  getBlockTxids : PeerID → BlockID → Option (List TxID)
  getBlockTxs : PeerID → BlockID → List Nat → Option (List Tx)
  peers : List PeerID
  decodeMempoolXthinner : XThinnerBlock → Block × List Nat

/-- Indices of the transactions whose ID disagrees with the peer's txid
list (`for i, tx := range blk.Transactions { if tx.ID() != txids[i] {
missing = append(missing, i) } }`; the caller has checked the two
lists have equal length). -/
def missingIndices (txs : List Tx) (txids : List TxID) : List Nat :=
  (List.range txs.length).filter fun i =>
    decide ((txs.getD i default).ID ≠ txids.getD i default)

/-- The patch loop `for i, tx := range repl { txs[missing[i]] = tx }`.
`none` models the index-out-of-range panic Go raises when `repl` is
longer than `missing` or a missing index exceeds the slice length. -/
def patchTxs : List Tx → List Nat → List Tx → Option (List Tx)
  | txs, _, [] => some txs
  | txs, m :: ms, r :: rs =>
      if m < txs.length then patchTxs (txs.set m r) ms rs else none
  | _, [], _ :: _ => none

/-- Embedding of `Server.fetchBlockTxids`.  The Go parameter is a
pointer `*blocks.Block`; the caller `processBlock` passes the nil
result of a previous failed call on its retry path, so the parameter is
an `Option Block`.  Computing `blk.ID()` hashes the canonical header
serialization, which dereferences the receiver, so on `none` the call
is a nil-pointer panic. -/
def fetchBlockTxids (E : Env) (blk? : Option Block) (p : PeerID) : GoResult Block :=
  match blk? with
  | none => .crashed
  | some blk =>
    match E.getBlockTxids p blk.ID with
    | none => .err .rpcError
    | some txids =>
      if txids.length ≠ blk.transactions.length then .err .unexpectedIDCount
      else
        let missing := missingIndices blk.transactions txids
        if missing.length = 0 then .err .blockInvalid
        else
          match E.getBlockTxs p blk.ID missing with
          | none => .err .rpcError
          | some txs =>
            match patchTxs blk.transactions missing txs with
            | none => .crashed
            | some newTxs => .ok { blk with transactions := newTxs }

/-- The helper loop of `decodeXthinner` over connected peers: request
the still-missing transactions from each peer in turn; on the first
success patch the block and return it; failures are not penalized
(the code comments that these peers did not send the block). -/
def decodeTryPeers (E : Env) (xtbID : BlockID) (blk : Block) (missing : List Nat) :
    List PeerID → GoResult Block
  | [] => .ok blk
  | pid :: rest =>
    match E.getBlockTxs pid xtbID missing with
    | some txs =>
      match patchTxs blk.transactions missing txs with
      | none => .crashed
      | some newTxs => .ok { blk with transactions := newTxs }
    | none => decodeTryPeers E xtbID blk missing rest

/-- Embedding of `Server.decodeXthinner`: decode against the mempool;
if indices are missing, ask the relaying peer; on its error response
apply `IncreaseBanscore(relayingPeer, 34, 0)` and fall back to the
other connected peers; every return statement returns a nil error. -/
def decodeXthinner (E : Env) (xtb : XThinnerBlock) (relayingPeer : PeerID) :
    GoResult Block × List Event :=
  let dec := E.decodeMempoolXthinner xtb
  let blk := dec.1
  let missing := dec.2
  if missing.length > 0 then
    match E.getBlockTxs relayingPeer xtb.ID missing with
    | some txs =>
      (match patchTxs blk.transactions missing txs with
       | none => .crashed
       | some newTxs => .ok { blk with transactions := newTxs }, [])
    | none =>
      (decodeTryPeers E xtb.ID blk missing E.peers,
       [Event.banscore relayingPeer 34 0])
  else (.ok blk, [])

/-- Result of the retry loop over connected peers inside the
`ErrInvalidTxRoot` branch of `processBlock`. -/
inductive FetchLoopResult
  | success (b : Block)
  | crashed
  | exhausted
deriving DecidableEq, Repr

/-- The retry loop `for _, pid := range s.network.Host().Network().Peers()
{ blk, err = s.fetchBlockTxids(blk, pid) ... }`.  The loop variable
`blk` was shadowed by the failed originator call and holds nil on
entry; after every failed iteration it is nil again. -/
def tryPeersFetch (E : Env) : Option Block → List PeerID → FetchLoopResult
  | _, [] => .exhausted
  | cur, pid :: rest =>
    match fetchBlockTxids E cur pid with
    | .ok b => .success b
    | .err _ => tryPeersFetch E none rest
    | .crashed => .crashed

/-- The map mutation `s.activeInventory[blk.ID()] = blk`, performed
under `inventoryLock` (lines 307-309 of the source). -/
def insertInventory (st : ServerState) (blk : Block) : ServerState :=
  { st with activeInventory := upsert blk.ID blk st.activeInventory }

/-- The map mutation `delete(s.orphanBlocks, blk.ID())`, performed
under `orphanLock` (lines 311-313 of the source). -/
def removeOrphanEntry (st : ServerState) (id : BlockID) : ServerState :=
  { st with orphanBlocks := eraseKey id st.orphanBlocks }

/-- The accepting tail of `processBlock` (`CheckConnectBlock` returned
nil): insert into `activeInventory`, delete from `orphanBlocks`, call
`engine.NewBlock`; the consensus waiter goroutine is spawned and
modelled separately as `consensusWaiter`. -/
def acceptBlock (st : ServerState) (blk : Block) (recheck : Bool) :
    ServerState × List Event × GoResult Unit :=
  (removeOrphanEntry (insertInventory st blk) blk.ID,
   [Event.entered blk.ID recheck, Event.newBlock blk.ID],
   .ok ())

/-- The `OrphanBlockError` branch of `processBlock`: store the block in
`orphanBlocks` with its relaying peer and return the error. -/
def orphanCase (st : ServerState) (blk : Block) (relayingPeer : PeerID)
    (recheck : Bool) : ServerState × List Event × GoResult Unit :=
  ({ st with orphanBlocks := upsert blk.ID ⟨blk, relayingPeer⟩ st.orphanBlocks },
   [Event.entered blk.ID recheck],
   .err (.blockCheck .orphanBlockError))

/-- Embedding of `Server.processBlock` at `recheck = true`.  The Go
function is one recursive function with a `recheck` flag; every
recursive call passes `recheck = true`, and with `recheck = true` the
`RuleError` case returns before reaching the recursion sites, so the
`recheck = true` instance is non-recursive and is split out here. -/
def processBlockR (E : Env) (st : ServerState) (blk : Block) (relayingPeer : PeerID) :
    ServerState × List Event × GoResult Unit :=
  match E.checkConnectBlock blk with
  | some .orphanBlockError => orphanCase st blk relayingPeer true
  | some (.ruleError k) =>
      (st, [Event.entered blk.ID true, Event.banscore relayingPeer 34 0],
       .err (.blockCheck (.ruleError k)))
  | some .otherError =>
      (st, [Event.entered blk.ID true], .err (.blockCheck .otherError))
  | none => acceptBlock st blk true

/-- Embedding of `Server.processBlock`.  On `ErrInvalidTxRoot` (first
check only) it attempts `fetchBlockTxids` from the relaying peer and
recurses with `recheck = true` on success; on the originator's failure
it bans the originator 34 and retries over the connected peers with the
nil-shadowed block variable. -/
def processBlock (E : Env) (st : ServerState) (blk : Block) (relayingPeer : PeerID) :
    Bool → ServerState × List Event × GoResult Unit
  | true => processBlockR E st blk relayingPeer
  | false =>
    match E.checkConnectBlock blk with
    | some .orphanBlockError => orphanCase st blk relayingPeer false
    | some (.ruleError k) =>
      match k with
      | .errInvalidTxRoot =>
        (match fetchBlockTxids E (some blk) relayingPeer with
         | .ok blk2 =>
             let r := processBlockR E st blk2 relayingPeer
             (r.1, Event.entered blk.ID false :: r.2.1, r.2.2)
         | .crashed => (st, [Event.entered blk.ID false], .crashed)
         | .err _ =>
           match tryPeersFetch E none E.peers with
           | .success blk2 =>
               let r := processBlockR E st blk2 relayingPeer
               (r.1,
                Event.entered blk.ID false ::
                  Event.banscore relayingPeer 34 0 :: r.2.1,
                r.2.2)
           | .crashed =>
               (st, [Event.entered blk.ID false,
                     Event.banscore relayingPeer 34 0], .crashed)
           | .exhausted =>
               (st, [Event.entered blk.ID false,
                     Event.banscore relayingPeer 34 0],
                .err (.blockCheck (.ruleError k))))
      | .errDoesNotConnect =>
          (st, [Event.entered blk.ID false, Event.banscore relayingPeer 0 10],
           .err (.blockCheck (.ruleError k)))
      | .otherRuleViolation =>
          (st, [Event.entered blk.ID false, Event.banscore relayingPeer 101 0],
           .err (.blockCheck (.ruleError k)))
    | some .otherError =>
        (st, [Event.entered blk.ID false], .err (.blockCheck .otherError))
    | none => acceptBlock st blk false

/-- Embedding of `Server.handleIncomingBlock`: decode the xthinner
block, return the decode error if any, else `processBlock` with
`recheck = false`. -/
def handleIncomingBlock (E : Env) (st : ServerState) (xtb : XThinnerBlock)
    (p : PeerID) : ServerState × List Event × GoResult Unit :=
  match decodeXthinner E xtb p with
  | (.ok blk, evs) =>
      let r := processBlock E st blk p false
      (r.1, evs ++ r.2.1, r.2.2)
  | (.err e, evs) => (st, evs, .err e)
  | (.crashed, evs) => (st, evs, .crashed)

/-- Embedding of the chain-service client `ChainService.GetBlockTxs`:
`wire` gives the raw outcome of `SendRequest` — `none` a transport
error, `some none` a response carrying a non-`None` error code,
`some (some txs)` a successful response carrying `txs`.  The client
returns an error on the first two; on a successful response whose
transaction count differs from the requested index count it applies
`IncreaseBanscore(p, 50, 0)` and returns an error; otherwise it returns
the transactions (hence always exactly one per requested index). -/
def chainServiceGetBlockTxs
    (wire : PeerID → BlockID → List Nat → Option (Option (List Tx)))
    (p : PeerID) (id : BlockID) (idxs : List Nat) :
    Option (List Tx) × List Event :=
  match wire p id idxs with
  | none => (none, [])
  | some none => (none, [])
  | some (some txs) =>
      if txs.length ≠ idxs.length then (none, [Event.banscore p 50 0])
      else (some txs, [])

/-- The `Env` induced by wire-level peer responses: its `getBlockTxs`
field is the value component of the embedded chain-service client run
on the wire oracle (the client's own ban events live at the client
layer, `chainServiceGetBlockTxs`). -/
def envOfWire (check : Block → Option BlockCheckError)
    (txidsOracle : PeerID → BlockID → Option (List TxID))
    (wire : PeerID → BlockID → List Nat → Option (Option (List Tx)))
    (ps : List PeerID)
    (decodeM : XThinnerBlock → Block × List Nat) : Env where
  checkConnectBlock := check
  getBlockTxids := txidsOracle
  getBlockTxs := fun p id idxs => (chainServiceGetBlockTxs wire p id idxs).1
  peers := ps
  decodeMempoolXthinner := decodeM

/-- Status emitted on the consensus callback channel. -/
inductive ConsensusStatus
  | finalized
  | rejected
deriving DecidableEq, Repr

/-- The orphan lookup of the consensus waiter: the first stored orphan
whose height equals the given height (`for ... range s.orphanBlocks`
with `break` after the first match). -/
def findReprocessOrphan (orphans : List (BlockID × OrphanEntry)) (h : Nat) :
    Option OrphanEntry :=
  (orphans.find? fun e => e.2.blk.header.height == h).map (·.2)

/-- Result of a `processBlock` invocation executed while the caller
already holds `orphanLock`: the waiter's orphan re-entry at line 341
runs inside the `orphanLock` scope opened at line 337, and
`sync.RWMutex` is not reentrant, so any attempt by the callee to take
`orphanLock` again blocks the goroutine forever. -/
inductive LockedRun
  | returned (r : GoResult Unit)
  | blockedOnOrphanLock
deriving DecidableEq, Repr

/-- The recheck instance of `processBlock` executed while the caller
holds `orphanLock`: the `OrphanBlockError` branch blocks at line 255
before the orphan-map insert; the accept path performs the inventory
insert (lines 307-309, `inventoryLock` is free) and then blocks at line
311, before the orphan delete (line 312) and before `NewBlock` (line
315); the `RuleError` and unclassified-error branches touch no lock and
return as in `processBlockR`. -/
def processBlockHeldR (E : Env) (st : ServerState) (blk : Block)
    (relayingPeer : PeerID) : ServerState × List Event × LockedRun :=
  match E.checkConnectBlock blk with
  | some .orphanBlockError =>
      (st, [Event.entered blk.ID true], .blockedOnOrphanLock)
  | some (.ruleError k) =>
      (st, [Event.entered blk.ID true, Event.banscore relayingPeer 34 0],
       .returned (.err (.blockCheck (.ruleError k))))
  | some .otherError =>
      (st, [Event.entered blk.ID true], .returned (.err (.blockCheck .otherError)))
  | none =>
      (insertInventory st blk, [Event.entered blk.ID true], .blockedOnOrphanLock)

/-- Embedding of `Server.processBlock` with `recheck = false` executed
while the caller holds `orphanLock` (the consensus waiter's re-entry):
same dispatch as `processBlock`, but the two `orphanLock` acquisitions
— the orphan store at line 255 and the orphan delete at line 311 —
self-deadlock, the latter after the inventory insert of lines 307-309
and before `NewBlock` is reached. -/
def processBlockHeld (E : Env) (st : ServerState) (blk : Block)
    (relayingPeer : PeerID) : ServerState × List Event × LockedRun :=
  match E.checkConnectBlock blk with
  | some .orphanBlockError =>
      (st, [Event.entered blk.ID false], .blockedOnOrphanLock)
  | some (.ruleError k) =>
    match k with
    | .errInvalidTxRoot =>
      (match fetchBlockTxids E (some blk) relayingPeer with
       | .ok blk2 =>
           let r := processBlockHeldR E st blk2 relayingPeer
           (r.1, Event.entered blk.ID false :: r.2.1, r.2.2)
       | .crashed => (st, [Event.entered blk.ID false], .returned .crashed)
       | .err _ =>
         match tryPeersFetch E none E.peers with
         | .success blk2 =>
             let r := processBlockHeldR E st blk2 relayingPeer
             (r.1,
              Event.entered blk.ID false ::
                Event.banscore relayingPeer 34 0 :: r.2.1,
              r.2.2)
         | .crashed =>
             (st, [Event.entered blk.ID false,
                   Event.banscore relayingPeer 34 0], .returned .crashed)
         | .exhausted =>
             (st, [Event.entered blk.ID false,
                   Event.banscore relayingPeer 34 0],
              .returned (.err (.blockCheck (.ruleError k)))))
    | .errDoesNotConnect =>
        (st, [Event.entered blk.ID false, Event.banscore relayingPeer 0 10],
         .returned (.err (.blockCheck (.ruleError k))))
    | .otherRuleViolation =>
        (st, [Event.entered blk.ID false, Event.banscore relayingPeer 101 0],
         .returned (.err (.blockCheck (.ruleError k))))
  | some .otherError =>
      (st, [Event.entered blk.ID false], .returned (.err (.blockCheck .otherError)))
  | none =>
      (insertInventory st blk, [Event.entered blk.ID false], .blockedOnOrphanLock)

/-- How the waiter goroutine's body ends: normal completion, a
self-deadlock on `orphanLock` inside the orphan re-entry, or a runtime
panic propagating out of it. -/
inductive WaiterRun
  | completed
  | blockedOnOrphanLock
  | crashed
deriving DecidableEq, Repr

/-- Embedding of the waiter goroutine spawned by `processBlock` (lines
317-349 of the source), given the status received on the callback
channel: on `StatusFinalized` call `ConnectBlock`; then — for either
status — delete the block from `activeInventory` (lines 333-335, under
`inventoryLock`), take `orphanLock` (line 337) and re-enter
`processBlock` for the first stored orphan at height `Height + 1` (line
341).  The re-entered call runs with `orphanLock` held, so it is the
`processBlockHeld` behaviour: it self-deadlocks before `NewBlock` and
before any orphan-map mutation whenever it reaches an `orphanLock`
acquisition. -/
def consensusWaiter (E : Env) (st : ServerState) (blk : Block)
    (status : ConsensusStatus) : ServerState × List Event × WaiterRun :=
  let evs0 := match status with
    | .finalized => [Event.connectBlock blk.ID]
    | .rejected => []
  let st1 := { st with activeInventory := eraseKey blk.ID st.activeInventory }
  match findReprocessOrphan st1.orphanBlocks (blk.header.height + 1) with
  | some o =>
      let r := processBlockHeld E st1 o.blk o.relayingPeer
      (r.1, evs0 ++ r.2.1,
       match r.2.2 with
       | .blockedOnOrphanLock => .blockedOnOrphanLock
       | .returned .crashed => .crashed
       | .returned _ => .completed)
  | none => (st1, evs0, .completed)

/-- Operations performed on the `inflightLock` reader-writer mutex. -/
inductive LockOp
  | rLock
  | rUnlock
  | wLock
  | wUnlock
deriving DecidableEq, Repr

/-- Single-goroutine execution of a sequence of operations on one
`sync.RWMutex`, tracking the number of read locks the goroutine holds.
Acquiring the write lock while any read lock is held blocks forever
(the holder is the would-be writer itself), as does releasing an unheld
read lock; both are modelled as `none` (stuck). -/
def runLockOps : Nat → List LockOp → Option Nat
  | r, [] => some r
  | r, .rLock :: ops => runLockOps (r + 1) ops
  | r, .rUnlock :: ops => if r = 0 then none else runLockOps (r - 1) ops
  | r, .wLock :: ops => if r = 0 then runLockOps r ops else none
  | r, .wUnlock :: ops => runLockOps r ops

/-- The sequence of `inflightLock` operations executed by
`Server.requestBlock`, by source line: 421 `RLock`; on the duplicate
path 423 `RUnlock` and return; otherwise 426 `RLock` (the source
repeats `RLock` where the matching `RUnlock` belongs), 428 `Lock`, 430
`Unlock` for the insert, then either 434/436 `Lock`/`Unlock` for the
delete on `GetBlock` failure, or 443/445 `Lock`/`Unlock` inside the
5-minute timer callback. -/
def requestBlockLockOps (alreadyInflight getBlockFails : Bool) : List LockOp :=
  if alreadyInflight then [.rLock, .rUnlock]
  else
    [.rLock, .rLock, .wLock, .wUnlock] ++
      (if getBlockFails then [.wLock, .wUnlock] else [.wLock, .wUnlock])

/-- The node-level `Policy` built by `BuildServer` from the config. -/
structure Policy where
  minFeePerByte : Nat
  minStake : Nat
  blocksizeSoftLimit : Nat
  maxMessageSize : Nat
  treasuryWhitelist : List BlockID
deriving DecidableEq, Repr

/-- The treasury-whitelist loop of `BuildServer` (lines 81-87): for
each configured ID string, parse it with `types.NewIDFromString`
(abstracted as the `parse` oracle, `none` = parse error, since the
`types` package is outside the embedded sources); on error return it;
on success append to `s.policy.TreasuryWhitelist`.  `sPolicy` is the
`policy` field of the freshly zeroed `Server` struct, which is a nil
pointer until line 228 assigns it; appending through the nil pointer is
a runtime panic. -/
def treasuryWhitelistLoop (parse : String → Option BlockID)
    (sPolicy : Option Policy) : List String → GoResult (Option Policy)
  | [] => .ok sPolicy
  | idStr :: rest =>
    match parse idStr with
    | none => .err .idParseError
    | some w =>
      match sPolicy with
      | none => .crashed
      | some pol =>
          treasuryWhitelistLoop parse
            (some { pol with treasuryWhitelist := pol.treasuryWhitelist ++ [w] })
            rest

/-- The whitelist-processing step of `BuildServer` as it actually runs:
`s := Server{}` leaves `s.policy` nil, and the loop executes before the
assignment `s.policy = policy` at line 228, so it starts from a nil
`s.policy`. -/
def buildServerWhitelistStep (parse : String → Option BlockID)
    (whitelist : List String) : GoResult (Option Policy) :=
  treasuryWhitelistLoop parse none whitelist

/-- Empty coordinator state (all three maps empty, as after `BuildServer`). -/
def stEmpty : ServerState := ⟨[], [], []⟩

/-- Sample block at height 5 with ID 100 and no transactions. -/
def blkA : Block := ⟨⟨5, 100⟩, []⟩

/-- Sample block at height 6 with ID 200, used as a stored orphan. -/
def orphanBlkB : Block := ⟨⟨6, 200⟩, []⟩

/-- Sample xthinner announcement with the header of `blkA`. -/
def xtbC : XThinnerBlock := ⟨⟨5, 100⟩⟩

/-- Environment in which `CheckConnectBlock` accepts every block, every
RPC fails, no peers are connected and the mempool decode finds every
transaction. -/
def envAccept : Env where
  checkConnectBlock := fun _ => none
  getBlockTxids := fun _ _ => none
  getBlockTxs := fun _ _ _ => none
  peers := []
  decodeMempoolXthinner := fun x => (⟨x.header, []⟩, [])

/-- State holding `orphanBlkB` (height 6, relayed by peer 9) as an
orphan and `blkA` in the active inventory. -/
def stC2 : ServerState := ⟨[(200, ⟨orphanBlkB, 9⟩)], [(100, blkA)], []⟩

/-- Wire oracle on which every peer answers with a response carrying an
error code (`some none`). -/
def wireErrResp : PeerID → BlockID → List Nat → Option (Option (List Tx)) :=
  fun _ _ _ => some none

/-- Wire oracle on which every peer answers successfully but with two
transactions regardless of how many indices were requested. -/
def wireW3 : PeerID → BlockID → List Nat → Option (Option (List Tx)) :=
  fun _ _ _ => some (some [⟨1⟩, ⟨2⟩])

/-- Environment whose mempool decode reports transaction index 0
missing and in which every peer answers `GetBlockTxs` with an
error-code response (so the client returns an error without banning);
no other peers are connected. -/
def envC3 : Env :=
  envOfWire (fun _ => none) (fun _ _ => none) wireErrResp []
    (fun x => (⟨x.header, [⟨0⟩]⟩, [0]))

/-- Environment in which every block fails `CheckConnectBlock` with
`ErrInvalidTxRoot`, every RPC fails, and one peer (9) is connected. -/
def envC4 : Env :=
  { envAccept with
      checkConnectBlock := fun _ => some (.ruleError .errInvalidTxRoot)
      peers := [9] }

/-- State holding `blkA` as a stored orphan (relayed by peer 7). -/
def stC6 : ServerState := ⟨[(100, ⟨blkA, 7⟩)], [], []⟩

/-- Environment in which every block fails `CheckConnectBlock` with a
rule error that is neither `ErrInvalidTxRoot` nor `ErrDoesNotConnect`. -/
def envC7 : Env :=
  { envAccept with checkConnectBlock := fun _ => some (.ruleError .otherRuleViolation) }

/-- One-transaction block whose transaction has ID 5. -/
def blkC8 : Block := ⟨⟨3, 300⟩, [⟨5⟩]⟩

/-- Environment whose peers report the txid list `[7]` for any block
and supply the transaction with ID 9 for any requested indices. -/
def envC8 : Env :=
  { envAccept with
      getBlockTxids := fun _ _ => some [7]
      getBlockTxs := fun _ _ _ => some [⟨9⟩] }

/-- Two-transaction block with transaction IDs 5 and 6. -/
def blkW8 : Block := ⟨⟨3, 300⟩, [⟨5⟩, ⟨6⟩]⟩

/-- Environment whose peers report the txid list `[5, 9]` and supply
the transaction with ID 9 for the requested indices. -/
def envW8 : Env :=
  { envAccept with
      getBlockTxids := fun _ _ => some [5, 9]
      getBlockTxs := fun _ _ _ => some [⟨9⟩] }

/-- Environment whose mempool decode reports index 0 missing from a
one-transaction reconstruction and in which every repair RPC fails. -/
def envW9 : Env :=
  { envAccept with decodeMempoolXthinner := fun x => (⟨x.header, [⟨1⟩]⟩, [0]) }

/-- Concrete stand-in for `types.NewIDFromString`: accepts exactly the
string `ok`. -/
def sampleParse : String → Option BlockID :=
  fun s => if s = "ok" then some 1 else none

/-- C1: the claim says a second `ProcessBlock` arrival of a BlockID
already in `activeInventory` is a no-op that neither re-inserts nor
re-invokes `NewBlock`.  The code has no such guard: evaluating the
pipeline twice on the same accepted block shows the first run leaves
the block in `activeInventory`, yet the second run again emits
`NewBlock` and again leaves the (re-inserted) entry. -/
theorem processBlock_duplicate_arrival_reinvokes_newBlock :
    hasKey blkA.ID (processBlock envAccept stEmpty blkA 7 false).1.activeInventory = true
    ∧ (processBlock envAccept (processBlock envAccept stEmpty blkA 7 false).1 blkA 7 false).2.1
        = [Event.entered 100 false, Event.newBlock 100]
    ∧ hasKey blkA.ID
        (processBlock envAccept (processBlock envAccept stEmpty blkA 7 false).1 blkA 7 false).1.activeInventory
        = true := by decide

/-- C2 (counterexample): the claim says that after `StatusRejected` the
waiter does not re-enter `ProcessBlock` for any stored orphan.  With
`blkA` (height 5) resolving as rejected and `orphanBlkB` (height 6)
stored as an orphan, the waiter does re-enter `ProcessBlock` for the
orphan (observable `entered` marker); the re-entered call accepts the
orphan, inserts it into `activeInventory`, and then self-deadlocks on
`orphanLock`, so the orphan is still stored and `NewBlock` is never
reached. -/
theorem consensusWaiter_rejected_reenters_orphan :
    (consensusWaiter envAccept stC2 blkA ConsensusStatus.rejected).2.1
      = [Event.entered 200 false]
    ∧ (consensusWaiter envAccept stC2 blkA ConsensusStatus.rejected).2.2
      = WaiterRun.blockedOnOrphanLock
    ∧ hasKey 200 (consensusWaiter envAccept stC2 blkA ConsensusStatus.rejected).1.activeInventory = true
    ∧ hasKey 200 (consensusWaiter envAccept stC2 blkA ConsensusStatus.rejected).1.orphanBlocks = true := by
  decide

/-- C3 (counterexample): the claim says an error response from the
announcing peer costs that peer +50 behavioral.  With the announcing
peer (4) answering the request for the missing indices with an
error-code response, the chain-service client returns an error without
any ban and `decodeXthinner` emits exactly `IncreaseBanscore(4, 34, 0)`
— the full run penalizes the announcer +34, not +50. -/
theorem decodeXthinner_originator_error_bans_34_not_50 :
    chainServiceGetBlockTxs wireErrResp 4 xtbC.ID [0] = (none, [])
    ∧ (decodeXthinner envC3 xtbC 4).2 = [Event.banscore 4 34 0]
    ∧ Event.banscore 4 50 0 ∉
        (chainServiceGetBlockTxs wireErrResp 4 xtbC.ID [0]).2
          ++ (decodeXthinner envC3 xtbC 4).2 := by decide

/-- C4: the claim says that after the originator fails to supply the
txid list, every connected peer is tried in turn and the first success
recurses (or the rule error is returned).  In the code the `blk, err :=`
inside the `ErrInvalidTxRoot` branch shadows `blk`, so after the failed
originator call `blk` is nil and the retry loop calls
`fetchBlockTxids(nil, pid)`, whose `blk.ID()` dereferences the nil
pointer: with one connected peer the run panics after the +34,
instead of ever reaching a helper success or the error return. -/
theorem processBlock_invalidTxRoot_helper_loop_crashes :
    processBlock envC4 stEmpty blkA 7 false
      = (stEmpty, [Event.entered 100 false, Event.banscore 7 34 0],
         GoResult.crashed) := by decide

/-- C5: the claim says `inflightRequests` entries are inserted and then
removed within 5 minutes.  `requestBlock` read-locks `inflightLock`
twice (line 426 repeats the `RLock` of line 421 where the `RUnlock`
belongs) and then requests the write lock while still holding both read
locks, so on every non-duplicate call the goroutine self-deadlocks
before inserting anything; only the duplicate early-return path
completes. -/
theorem requestBlock_lock_discipline_self_deadlock :
    runLockOps 0 (requestBlockLockOps false false) = none
    ∧ runLockOps 0 (requestBlockLockOps false true) = none
    ∧ runLockOps 0 (requestBlockLockOps true false) = some 0
    ∧ runLockOps 0 (requestBlockLockOps true true) = some 0 := by decide

/-- C6 (counterexample): the claim says that at every observable point
a BlockID is in at most one of `orphanBlocks` and `activeInventory`.
The success path of `processBlock` first inserts into `activeInventory`
(under `inventoryLock`) and only then deletes from `orphanBlocks`
(under `orphanLock`); between the two lock scopes a stored orphan being
accepted is observably in both maps. -/
theorem insertInventory_transient_overlap :
    hasKey 100 (insertInventory stC6 blkA).activeInventory = true
    ∧ hasKey 100 (insertInventory stC6 blkA).orphanBlocks = true := by decide

/-- C8 (counterexample): the claim says the block returned by
`fetchBlockTxids` matches the peer's txid list at every index for any
transactions the peer supplies.  The code never verifies the supplied
transactions: with txid list `[7]` and a supplied transaction of ID 9,
the returned block holds ID 9 at index 0, not 7. -/
theorem fetchBlockTxids_unverified_repair_mismatch :
    fetchBlockTxids envC8 (some blkC8) 3 = GoResult.ok ⟨⟨3, 300⟩, [⟨9⟩]⟩
    ∧ envC8.getBlockTxids 3 blkC8.ID = some [7]
    ∧ ((Block.mk ⟨3, 300⟩ [⟨9⟩]).transactions.getD 0 default).ID
        ≠ ([7] : List TxID).getD 0 default := by decide

/-- C10 (counterexample): the claim says every configuration whose
whitelist contains at least one valid ID string hits the nil-pointer
dereference.  With the whitelist `[bad, ok]`, whose second entry is
valid, the loop returns the parse error of the first entry and never
reaches the dereference. -/
theorem buildServer_whitelist_invalid_then_valid_no_deref :
    sampleParse "ok" = some 1
    ∧ buildServerWhitelistStep sampleParse ["bad", "ok"] = GoResult.err GoError.idParseError
    ∧ buildServerWhitelistStep sampleParse ["bad", "ok"] ≠ GoResult.crashed := by decide

/-- Key membership distributes over cons. -/
theorem hasKey_cons {β : Type} (k : Nat) (a : Nat × β) (m : List (Nat × β)) :
    hasKey k (a :: m) = if a.1 = k then true else hasKey k m := by
  by_cases h : a.1 = k
  · simp [hasKey, lookupKey, List.find?, h]
  · have hb : (a.1 == k) = false := beq_eq_false_iff_ne.mpr h
    simp [hasKey, lookupKey, List.find?, hb, h]

/-- Deletion distributes over cons. -/
theorem eraseKey_cons {β : Type} (k : Nat) (a : Nat × β) (m : List (Nat × β)) :
    eraseKey k (a :: m) = if a.1 = k then eraseKey k m else a :: eraseKey k m := by
  by_cases h : a.1 = k <;> simp [eraseKey, List.filter_cons, h]

/-- Inserting a key makes it present. -/
theorem hasKey_upsert_self {β : Type} (k : Nat) (v : β) (m : List (Nat × β)) :
    hasKey k (upsert k v m) = true := by
  simp [upsert, hasKey_cons]

/-- Deleting a key makes it absent. -/
theorem hasKey_eraseKey_self {β : Type} (k : Nat) (m : List (Nat × β)) :
    hasKey k (eraseKey k m) = false := by
  induction m with
  | nil => rfl
  | cons a m ih =>
    rw [eraseKey_cons]
    by_cases h : a.1 = k
    · rw [if_pos h]; exact ih
    · rw [if_neg h, hasKey_cons, if_neg h]; exact ih

/-- Deleting one key leaves the others unchanged. -/
theorem hasKey_eraseKey_other {β : Type} {k' k : Nat} (h : k' ≠ k)
    (m : List (Nat × β)) : hasKey k' (eraseKey k m) = hasKey k' m := by
  induction m with
  | nil => rfl
  | cons a m ih =>
    rw [eraseKey_cons]
    by_cases ha : a.1 = k
    · have ha' : ¬a.1 = k' := fun hc => h (hc ▸ ha ▸ rfl)
      rw [if_pos ha, hasKey_cons, if_neg ha']
      exact ih
    · rw [if_neg ha, hasKey_cons, hasKey_cons]
      by_cases hb : a.1 = k'
      · rw [if_pos hb, if_pos hb]
      · rw [if_neg hb, if_neg hb]; exact ih

/-- Inserting one key leaves the others unchanged. -/
theorem hasKey_upsert_other {β : Type} {k' k : Nat} (h : k' ≠ k) (v : β)
    (m : List (Nat × β)) : hasKey k' (upsert k v m) = hasKey k' m := by
  have hk : ¬(k, v).1 = k' := fun hc => h (by simpa using hc.symm)
  rw [upsert, hasKey_cons, if_neg hk]
  exact hasKey_eraseKey_other h m

/-- A successful `fetchBlockTxids` only patches transactions: the
header (hence the block ID) of the returned block is unchanged. -/
theorem fetchBlockTxids_ok_header {E : Env} {blk : Block} {p : PeerID} {b : Block}
    (h : fetchBlockTxids E (some blk) p = .ok b) : b.header = blk.header := by
  simp only [fetchBlockTxids] at h
  split at h
  · exact absurd h (by simp)
  · split at h
    · exact absurd h (by simp)
    · split at h
      · exact absurd h (by simp)
      · split at h
        · exact absurd h (by simp)
        · split at h
          · exact absurd h (by simp)
          · injection h with h
            subst h
            rfl

/-- The retry loop of the `ErrInvalidTxRoot` branch runs with the
nil-shadowed block and therefore can never produce a success: the first
iteration already dereferences the nil pointer. -/
theorem tryPeersFetch_none_not_success {E : Env} {b : Block} (ps : List PeerID) :
    tryPeersFetch E none ps ≠ FetchLoopResult.success b := by
  cases ps with
  | nil => simp [tryPeersFetch]
  | cons pid rest => simp [tryPeersFetch, fetchBlockTxids]

/-- Every `entered` marker emitted by the recheck instance of
`processBlock` carries the ID of the block being processed. -/
theorem processBlockR_entered {E : Env} {st : ServerState} {blk : Block}
    {p : PeerID} {id : BlockID} {rb : Bool}
    (h : Event.entered id rb ∈ (processBlockR E st blk p).2.1) : id = blk.ID := by
  unfold processBlockR at h
  split at h <;> simp [orphanCase, acceptBlock] at h <;> tauto

/-- The recheck instance of `processBlock` adds no inventory key other
than the ID of the block being processed. -/
theorem processBlockR_inventory {E : Env} {st : ServerState} {blk : Block}
    {p : PeerID} {k : BlockID}
    (h : hasKey k (processBlockR E st blk p).1.activeInventory = true) :
    hasKey k st.activeInventory = true ∨ k = blk.ID := by
  unfold processBlockR at h
  split at h
  · left; simpa [orphanCase] using h
  · left; exact h
  · left; exact h
  · by_cases hk : k = blk.ID
    · right; exact hk
    · left
      simp only [acceptBlock, removeOrphanEntry, insertInventory] at h
      rwa [hasKey_upsert_other hk] at h

/-- When the recheck instance of `processBlock` returns nil, the block
is in `activeInventory` and not in `orphanBlocks`. -/
theorem processBlockR_ok {E : Env} {st : ServerState} {blk : Block} {p : PeerID}
    (h : (processBlockR E st blk p).2.2 = .ok ()) :
    hasKey blk.ID (processBlockR E st blk p).1.activeInventory = true
    ∧ hasKey blk.ID (processBlockR E st blk p).1.orphanBlocks = false := by
  cases hE : E.checkConnectBlock blk with
  | none =>
    simp [processBlockR, hE, acceptBlock, removeOrphanEntry, insertInventory,
      hasKey_upsert_self, hasKey_eraseKey_self]
  | some e =>
    cases e with
    | orphanBlockError => simp [processBlockR, hE, orphanCase] at h
    | ruleError k => simp [processBlockR, hE] at h
    | otherError => simp [processBlockR, hE] at h

/-- Every `entered` marker emitted by `processBlock` carries the ID of
the block being processed (the tx-root repair recursion preserves the
header, hence the ID). -/
theorem processBlock_entered {E : Env} {st : ServerState} {blk : Block}
    {p : PeerID} {rc : Bool} {id : BlockID} {rb : Bool}
    (h : Event.entered id rb ∈ (processBlock E st blk p rc).2.1) : id = blk.ID := by
  cases rc with
  | true => exact processBlockR_entered h
  | false =>
    cases hE : E.checkConnectBlock blk with
    | none => simp [processBlock, hE, acceptBlock] at h; tauto
    | some e =>
      cases e with
      | orphanBlockError => simp [processBlock, hE, orphanCase] at h; tauto
      | otherError => simp [processBlock, hE] at h; tauto
      | ruleError k =>
        cases k with
        | errDoesNotConnect => simp [processBlock, hE] at h; tauto
        | otherRuleViolation => simp [processBlock, hE] at h; tauto
        | errInvalidTxRoot =>
          cases hF : fetchBlockTxids E (some blk) p with
          | ok blk2 =>
            simp [processBlock, hE, hF] at h
            rcases h with ⟨h1, _⟩ | h2
            · exact h1
            · have hid := processBlockR_entered h2
              have hh := fetchBlockTxids_ok_header hF
              rw [hid]
              simp [Block.ID, hh]
          | crashed => simp [processBlock, hE, hF] at h; tauto
          | err e' =>
            cases hT : tryPeersFetch E none E.peers with
            | success blk2 => exact absurd hT (tryPeersFetch_none_not_success _)
            | crashed => simp [processBlock, hE, hF, hT] at h; tauto
            | exhausted => simp [processBlock, hE, hF, hT] at h; tauto

/-- `processBlock` adds no inventory key other than the ID of the block
being processed. -/
theorem processBlock_inventory {E : Env} {st : ServerState} {blk : Block}
    {p : PeerID} {rc : Bool} {k : BlockID}
    (h : hasKey k (processBlock E st blk p rc).1.activeInventory = true) :
    hasKey k st.activeInventory = true ∨ k = blk.ID := by
  cases rc with
  | true => exact processBlockR_inventory h
  | false =>
    cases hE : E.checkConnectBlock blk with
    | none =>
      by_cases hk : k = blk.ID
      · right; exact hk
      · left
        simp only [processBlock, hE, acceptBlock, removeOrphanEntry,
          insertInventory] at h
        rwa [hasKey_upsert_other hk] at h
    | some e =>
      cases e with
      | orphanBlockError => left; simpa [processBlock, hE, orphanCase] using h
      | otherError => left; simpa [processBlock, hE] using h
      | ruleError kk =>
        cases kk with
        | errDoesNotConnect => left; simpa [processBlock, hE] using h
        | otherRuleViolation => left; simpa [processBlock, hE] using h
        | errInvalidTxRoot =>
          cases hF : fetchBlockTxids E (some blk) p with
          | ok blk2 =>
            simp only [processBlock, hE, hF] at h
            rcases processBlockR_inventory h with h1 | h2
            · left; exact h1
            · right
              have hh := fetchBlockTxids_ok_header hF
              rw [h2]
              simp [Block.ID, hh]
          | crashed => left; simpa [processBlock, hE, hF] using h
          | err e' =>
            cases hT : tryPeersFetch E none E.peers with
            | success blk2 => exact absurd hT (tryPeersFetch_none_not_success _)
            | crashed => left; simpa [processBlock, hE, hF, hT] using h
            | exhausted => left; simpa [processBlock, hE, hF, hT] using h

/-- When `processBlock` returns nil, the processed block is in
`activeInventory` and not in `orphanBlocks`. -/
theorem processBlock_ok_state {E : Env} {st : ServerState} {blk : Block}
    {p : PeerID} {rc : Bool}
    (h : (processBlock E st blk p rc).2.2 = .ok ()) :
    hasKey blk.ID (processBlock E st blk p rc).1.activeInventory = true
    ∧ hasKey blk.ID (processBlock E st blk p rc).1.orphanBlocks = false := by
  cases rc with
  | true => exact processBlockR_ok h
  | false =>
    cases hE : E.checkConnectBlock blk with
    | none =>
      simp [processBlock, hE, acceptBlock, removeOrphanEntry, insertInventory,
        hasKey_upsert_self, hasKey_eraseKey_self]
    | some e =>
      cases e with
      | orphanBlockError => simp [processBlock, hE, orphanCase] at h
      | otherError => simp [processBlock, hE] at h
      | ruleError kk =>
        cases kk with
        | errDoesNotConnect => simp [processBlock, hE] at h
        | otherRuleViolation => simp [processBlock, hE] at h
        | errInvalidTxRoot =>
          cases hF : fetchBlockTxids E (some blk) p with
          | ok blk2 =>
            simp only [processBlock, hE, hF] at h ⊢
            have hid : blk2.ID = blk.ID := by
              have hh := fetchBlockTxids_ok_header hF
              simp [Block.ID, hh]
            rw [← hid]
            exact processBlockR_ok h
          | crashed => simp [processBlock, hE, hF] at h
          | err e' =>
            cases hT : tryPeersFetch E none E.peers with
            | success blk2 => exact absurd hT (tryPeersFetch_none_not_success _)
            | crashed => simp [processBlock, hE, hF, hT] at h
            | exhausted => simp [processBlock, hE, hF, hT] at h

/-- A hit of the waiter's orphan lookup is a stored orphan at exactly
the requested height. -/
theorem findReprocessOrphan_facts {orphans : List (BlockID × OrphanEntry)}
    {h : Nat} {o : OrphanEntry} (hf : findReprocessOrphan orphans h = some o) :
    ∃ k, (k, o) ∈ orphans ∧ o.blk.header.height = h := by
  simp only [findReprocessOrphan, Option.map_eq_some'] at hf
  obtain ⟨e, he, heq⟩ := hf
  have hmem := List.mem_of_find?_eq_some he
  have hp := List.find?_some he
  refine ⟨e.1, ?_, ?_⟩
  · rw [← heq]
    simpa using hmem
  · rw [← heq]
    simpa using hp

/-- Every `entered` marker emitted by the lock-holding recheck instance
carries the ID of the block being processed. -/
theorem processBlockHeldR_entered {E : Env} {st : ServerState} {blk : Block}
    {p : PeerID} {id : BlockID} {rb : Bool}
    (h : Event.entered id rb ∈ (processBlockHeldR E st blk p).2.1) : id = blk.ID := by
  unfold processBlockHeldR at h
  split at h <;> simp at h <;> tauto

/-- The lock-holding recheck instance adds no inventory key other than
the ID of the block being processed. -/
theorem processBlockHeldR_inventory {E : Env} {st : ServerState} {blk : Block}
    {p : PeerID} {k : BlockID}
    (h : hasKey k (processBlockHeldR E st blk p).1.activeInventory = true) :
    hasKey k st.activeInventory = true ∨ k = blk.ID := by
  unfold processBlockHeldR at h
  split at h
  · left; exact h
  · left; exact h
  · left; exact h
  · by_cases hk : k = blk.ID
    · right; exact hk
    · left
      simp only [insertInventory] at h
      rwa [hasKey_upsert_other hk] at h

/-- The lock-holding recheck instance never mutates `orphanBlocks`: the
orphan store and the orphan delete both sit behind the blocking
`orphanLock` acquisition. -/
theorem processBlockHeldR_orphans (E : Env) (st : ServerState) (blk : Block)
    (p : PeerID) :
    (processBlockHeldR E st blk p).1.orphanBlocks = st.orphanBlocks := by
  unfold processBlockHeldR
  split <;> simp [insertInventory]

/-- The lock-holding recheck instance never reaches `NewBlock` (line
315 lies beyond the blocking `orphanLock` acquisition of line 311). -/
theorem processBlockHeldR_no_newBlock {E : Env} {st : ServerState} {blk : Block}
    {p : PeerID} {id : BlockID} :
    Event.newBlock id ∉ (processBlockHeldR E st blk p).2.1 := by
  unfold processBlockHeldR
  split <;> simp

/-- Every `entered` marker emitted by the lock-holding `processBlock`
carries the ID of the block being processed. -/
theorem processBlockHeld_entered {E : Env} {st : ServerState} {blk : Block}
    {p : PeerID} {id : BlockID} {rb : Bool}
    (h : Event.entered id rb ∈ (processBlockHeld E st blk p).2.1) : id = blk.ID := by
  cases hE : E.checkConnectBlock blk with
  | none => simp [processBlockHeld, hE] at h; tauto
  | some e =>
    cases e with
    | orphanBlockError => simp [processBlockHeld, hE] at h; tauto
    | otherError => simp [processBlockHeld, hE] at h; tauto
    | ruleError kk =>
      cases kk with
      | errDoesNotConnect => simp [processBlockHeld, hE] at h; tauto
      | otherRuleViolation => simp [processBlockHeld, hE] at h; tauto
      | errInvalidTxRoot =>
        cases hF : fetchBlockTxids E (some blk) p with
        | ok blk2 =>
          simp [processBlockHeld, hE, hF] at h
          rcases h with ⟨h1, _⟩ | h2
          · exact h1
          · have hid := processBlockHeldR_entered h2
            have hh := fetchBlockTxids_ok_header hF
            rw [hid]
            simp [Block.ID, hh]
        | crashed => simp [processBlockHeld, hE, hF] at h; tauto
        | err e' =>
          cases hT : tryPeersFetch E none E.peers with
          | success blk2 => exact absurd hT (tryPeersFetch_none_not_success _)
          | crashed => simp [processBlockHeld, hE, hF, hT] at h; tauto
          | exhausted => simp [processBlockHeld, hE, hF, hT] at h; tauto

/-- The lock-holding `processBlock` adds no inventory key other than
the ID of the block being processed. -/
theorem processBlockHeld_inventory {E : Env} {st : ServerState} {blk : Block}
    {p : PeerID} {k : BlockID}
    (h : hasKey k (processBlockHeld E st blk p).1.activeInventory = true) :
    hasKey k st.activeInventory = true ∨ k = blk.ID := by
  cases hE : E.checkConnectBlock blk with
  | none =>
    by_cases hk : k = blk.ID
    · right; exact hk
    · left
      simp only [processBlockHeld, hE, insertInventory] at h
      rwa [hasKey_upsert_other hk] at h
  | some e =>
    cases e with
    | orphanBlockError => left; simpa [processBlockHeld, hE] using h
    | otherError => left; simpa [processBlockHeld, hE] using h
    | ruleError kk =>
      cases kk with
      | errDoesNotConnect => left; simpa [processBlockHeld, hE] using h
      | otherRuleViolation => left; simpa [processBlockHeld, hE] using h
      | errInvalidTxRoot =>
        cases hF : fetchBlockTxids E (some blk) p with
        | ok blk2 =>
          simp only [processBlockHeld, hE, hF] at h
          rcases processBlockHeldR_inventory h with h1 | h2
          · left; exact h1
          · right
            have hh := fetchBlockTxids_ok_header hF
            rw [h2]
            simp [Block.ID, hh]
        | crashed => left; simpa [processBlockHeld, hE, hF] using h
        | err e' =>
          cases hT : tryPeersFetch E none E.peers with
          | success blk2 => exact absurd hT (tryPeersFetch_none_not_success _)
          | crashed => left; simpa [processBlockHeld, hE, hF, hT] using h
          | exhausted => left; simpa [processBlockHeld, hE, hF, hT] using h

/-- The lock-holding `processBlock` never mutates `orphanBlocks`. -/
theorem processBlockHeld_orphans (E : Env) (st : ServerState) (blk : Block)
    (p : PeerID) :
    (processBlockHeld E st blk p).1.orphanBlocks = st.orphanBlocks := by
  cases hE : E.checkConnectBlock blk with
  | none => simp [processBlockHeld, hE, insertInventory]
  | some e =>
    cases e with
    | orphanBlockError => simp [processBlockHeld, hE]
    | otherError => simp [processBlockHeld, hE]
    | ruleError kk =>
      cases kk with
      | errDoesNotConnect => simp [processBlockHeld, hE]
      | otherRuleViolation => simp [processBlockHeld, hE]
      | errInvalidTxRoot =>
        cases hF : fetchBlockTxids E (some blk) p with
        | ok blk2 =>
          simp only [processBlockHeld, hE, hF]
          exact processBlockHeldR_orphans E st blk2 p
        | crashed => simp [processBlockHeld, hE, hF]
        | err e' =>
          cases hT : tryPeersFetch E none E.peers with
          | success blk2 => exact absurd hT (tryPeersFetch_none_not_success _)
          | crashed => simp [processBlockHeld, hE, hF, hT]
          | exhausted => simp [processBlockHeld, hE, hF, hT]

/-- The lock-holding `processBlock` never reaches `NewBlock`. -/
theorem processBlockHeld_no_newBlock {E : Env} {st : ServerState} {blk : Block}
    {p : PeerID} {id : BlockID} :
    Event.newBlock id ∉ (processBlockHeld E st blk p).2.1 := by
  cases hE : E.checkConnectBlock blk with
  | none => simp [processBlockHeld, hE]
  | some e =>
    cases e with
    | orphanBlockError => simp [processBlockHeld, hE]
    | otherError => simp [processBlockHeld, hE]
    | ruleError kk =>
      cases kk with
      | errDoesNotConnect => simp [processBlockHeld, hE]
      | otherRuleViolation => simp [processBlockHeld, hE]
      | errInvalidTxRoot =>
        cases hF : fetchBlockTxids E (some blk) p with
        | ok blk2 =>
          simp only [processBlockHeld, hE, hF]
          intro hm
          rcases List.mem_cons.mp hm with h1 | h2
          · exact absurd h1 (by simp)
          · exact processBlockHeldR_no_newBlock h2
        | crashed => simp [processBlockHeld, hE, hF]
        | err e' =>
          cases hT : tryPeersFetch E none E.peers with
          | success blk2 => exact absurd hT (tryPeersFetch_none_not_success _)
          | crashed => simp [processBlockHeld, hE, hF, hT]
          | exhausted =>
            simp only [processBlockHeld, hE, hF, hT]
            intro hm
            rcases List.mem_cons.mp hm with h1 | h2
            · exact absurd h1 (by simp)
            · rcases List.mem_cons.mp h2 with h3 | h4
              · exact absurd h3 (by simp)
              · simp at h4

/-- A block accepted by `CheckConnectBlock` during a lock-holding
re-entry blocks on `orphanLock` (after the inventory insert, before
`NewBlock`). -/
theorem processBlockHeld_accept_blocked {E : Env} {st : ServerState}
    {blk : Block} {p : PeerID} (hE : E.checkConnectBlock blk = none) :
    (processBlockHeld E st blk p).2.2 = LockedRun.blockedOnOrphanLock := by
  simp [processBlockHeld, hE]

/-- Unfolding of the consensus waiter when no orphan matches. -/
theorem consensusWaiter_none {E : Env} {st : ServerState} {blk : Block}
    {status : ConsensusStatus}
    (hf : findReprocessOrphan st.orphanBlocks (blk.header.height + 1) = none) :
    consensusWaiter E st blk status =
      ({ st with activeInventory := eraseKey blk.ID st.activeInventory },
        (match status with
         | .finalized => [Event.connectBlock blk.ID]
         | .rejected => []),
        WaiterRun.completed) := by
  cases status <;> simp [consensusWaiter, hf]

/-- Unfolding of the consensus waiter when the first matching orphan is
re-entered into `processBlock` (with `orphanLock` held). -/
theorem consensusWaiter_some {E : Env} {st : ServerState} {blk : Block}
    {status : ConsensusStatus} {o : OrphanEntry}
    (hf : findReprocessOrphan st.orphanBlocks (blk.header.height + 1) = some o) :
    consensusWaiter E st blk status =
      ((processBlockHeld E { st with activeInventory := eraseKey blk.ID st.activeInventory }
          o.blk o.relayingPeer).1,
        (match status with
         | .finalized => [Event.connectBlock blk.ID]
         | .rejected => []) ++
          (processBlockHeld E { st with activeInventory := eraseKey blk.ID st.activeInventory }
            o.blk o.relayingPeer).2.1,
        (match (processBlockHeld E { st with activeInventory := eraseKey blk.ID st.activeInventory }
            o.blk o.relayingPeer).2.2 with
         | .blockedOnOrphanLock => WaiterRun.blockedOnOrphanLock
         | .returned .crashed => WaiterRun.crashed
         | .returned _ => WaiterRun.completed)) := by
  cases status <;> simp [consensusWaiter, hf]

/-- C2 (amended): orphan re-processing is attempted on consensus
resolution of either status, not only on finalization.  After the
callback yields `StatusFinalized` or `StatusRejected`, the waiter
removes the resolved block from `activeInventory` and re-enters via
`ProcessBlock` at most one stored orphan, one whose height equals the
resolved block's height + 1; the two statuses differ only in the
leading `ConnectBlock` call.  The re-entry runs while the waiter still
holds `orphanLock`, which `processBlock` re-acquires, so the re-entered
call never reaches `NewBlock` and never mutates `orphanBlocks`, and it
self-deadlocks whenever the orphan passes `CheckConnectBlock`. -/
theorem consensusWaiter_resolution_orphan_reprocessing (E : Env)
    (st : ServerState) (blk : Block) (status : ConsensusStatus)
    (horph : ∀ k oe, (k, oe) ∈ st.orphanBlocks → oe.blk.ID ≠ blk.ID) :
    hasKey blk.ID (consensusWaiter E st blk status).1.activeInventory = false
    ∧ (consensusWaiter E st blk status).1.orphanBlocks = st.orphanBlocks
    ∧ (∀ id, Event.newBlock id ∉ (consensusWaiter E st blk status).2.1)
    ∧ (∀ id rb, Event.entered id rb ∈ (consensusWaiter E st blk status).2.1 →
        ∃ k oe, (k, oe) ∈ st.orphanBlocks ∧ oe.blk.ID = id
          ∧ oe.blk.header.height = blk.header.height + 1)
    ∧ (∀ id rb id' rb', Event.entered id rb ∈ (consensusWaiter E st blk status).2.1 →
        Event.entered id' rb' ∈ (consensusWaiter E st blk status).2.1 → id = id')
    ∧ (∀ o, findReprocessOrphan st.orphanBlocks (blk.header.height + 1) = some o →
        E.checkConnectBlock o.blk = none →
        (consensusWaiter E st blk status).2.2 = WaiterRun.blockedOnOrphanLock)
    ∧ (consensusWaiter E st blk ConsensusStatus.finalized).1
        = (consensusWaiter E st blk ConsensusStatus.rejected).1
    ∧ (consensusWaiter E st blk ConsensusStatus.finalized).2.1
        = Event.connectBlock blk.ID :: (consensusWaiter E st blk ConsensusStatus.rejected).2.1
    ∧ (consensusWaiter E st blk ConsensusStatus.finalized).2.2
        = (consensusWaiter E st blk ConsensusStatus.rejected).2.2 := by
  cases hf : findReprocessOrphan st.orphanBlocks (blk.header.height + 1) with
  | none =>
    refine ⟨?_, ?_, ?_, ?_, ?_, ?_, ?_, ?_, ?_⟩
    · rw [consensusWaiter_none hf]
      simp [hasKey_eraseKey_self]
    · rw [consensusWaiter_none hf]
    · intro id
      rw [consensusWaiter_none hf]
      cases status <;> simp
    · intro id rb hm
      rw [consensusWaiter_none hf] at hm
      cases status <;> simp at hm
    · intro id rb id' rb' hm _
      rw [consensusWaiter_none hf] at hm
      cases status <;> simp at hm
    · intro o hfo
      exact absurd hfo (by simp)
    · simp [consensusWaiter_none hf]
    · simp [consensusWaiter_none hf]
    · simp [consensusWaiter_none hf]
  | some o =>
    obtain ⟨k0, hk0, hh0⟩ := findReprocessOrphan_facts hf
    have hne : o.blk.ID ≠ blk.ID := horph k0 o hk0
    refine ⟨?_, ?_, ?_, ?_, ?_, ?_, ?_, ?_, ?_⟩
    · rw [consensusWaiter_some hf]
      by_contra hb
      rw [Bool.not_eq_false] at hb
      rcases processBlockHeld_inventory hb with h1 | h2
      · simp [hasKey_eraseKey_self] at h1
      · exact hne h2.symm
    · rw [consensusWaiter_some hf]
      exact processBlockHeld_orphans E _ o.blk o.relayingPeer
    · intro id
      rw [consensusWaiter_some hf]
      intro hm
      rcases List.mem_append.mp hm with hm | hm
      · cases status <;> simp at hm
      · exact processBlockHeld_no_newBlock hm
    · intro id rb hm
      rw [consensusWaiter_some hf] at hm
      rw [List.mem_append] at hm
      rcases hm with hm | hm
      · cases status <;> simp at hm
      · exact ⟨k0, o, hk0, (processBlockHeld_entered hm).symm, hh0⟩
    · intro id rb id' rb' hm hm'
      rw [consensusWaiter_some hf] at hm hm'
      rw [List.mem_append] at hm hm'
      rcases hm with hm | hm
      · cases status <;> simp at hm
      rcases hm' with hm' | hm'
      · cases status <;> simp at hm'
      rw [processBlockHeld_entered hm, processBlockHeld_entered hm']
    · intro o' hfo hchk
      injection hfo with hfo
      subst hfo
      rw [consensusWaiter_some hf]
      simp [processBlockHeld_accept_blocked hchk]
    · simp [consensusWaiter_some hf]
    · simp [consensusWaiter_some hf]
    · simp [consensusWaiter_some hf]

/-- C2 (witness): the amended statement instantiated at the rejected
resolution of `blkA` with `orphanBlkB` stored as an orphan: the
inventory entry is removed, the orphan map is untouched, and the
re-entry (whose orphan passes the check) leaves the waiter blocked on
`orphanLock`. -/
theorem consensusWaiter_resolution_orphan_reprocessing_witness :
    hasKey blkA.ID (consensusWaiter envAccept stC2 blkA ConsensusStatus.rejected).1.activeInventory = false
    ∧ (consensusWaiter envAccept stC2 blkA ConsensusStatus.rejected).1.orphanBlocks
        = stC2.orphanBlocks
    ∧ (consensusWaiter envAccept stC2 blkA ConsensusStatus.rejected).2.2
        = WaiterRun.blockedOnOrphanLock
    ∧ (consensusWaiter envAccept stC2 blkA ConsensusStatus.finalized).2.1
        = Event.connectBlock blkA.ID
            :: (consensusWaiter envAccept stC2 blkA ConsensusStatus.rejected).2.1 := by
  obtain ⟨h1, h2, h3, h4, h5, h6, h7, h8, h9⟩ :=
    consensusWaiter_resolution_orphan_reprocessing envAccept stC2 blkA
      ConsensusStatus.rejected (by
        intro k oe hm
        simp [stC2] at hm
        rw [hm.2]
        decide)
  exact ⟨h1, h2, h6 ⟨orphanBlkB, 9⟩ (by decide) rfl, h8⟩

/-- C3 (amended): the ban scoring for a failed repair splits over two
layers, neither of which is exactly +50 standalone.  The chain-service
client (`ChainService.GetBlockTxs`) returns an error without any ban on
a transport error or an error-code response; on a successful response
carrying a wrong-length transaction list it applies
`IncreaseBanscore(peer, 50, 0)` — to whichever peer answered, the
announcer or a helper — and on success it always returns exactly one
transaction per requested index.  The coordinator (`decodeXthinner`)
adds exactly `IncreaseBanscore(relayingPeer, 34, 0)` when the client's
call for the announcing peer fails, and itself never penalizes the
other peers tried afterwards.  Hence an announcer returning an error
response accrues 34 in total, and one returning an incomplete list
accrues 50 + 34. -/
theorem decodeXthinner_originator_error_score :
    (∀ (wire : PeerID → BlockID → List Nat → Option (Option (List Tx)))
        (q : PeerID) (id : BlockID) (idxs : List Nat) (txs : List Tx)
        (evs : List Event),
        chainServiceGetBlockTxs wire q id idxs = (some txs, evs) →
        txs.length = idxs.length ∧ evs = [])
    ∧ (∀ (wire : PeerID → BlockID → List Nat → Option (Option (List Tx)))
        (q : PeerID) (id : BlockID) (idxs : List Nat) (txs : List Tx),
        wire q id idxs = some (some txs) → txs.length ≠ idxs.length →
        chainServiceGetBlockTxs wire q id idxs = (none, [Event.banscore q 50 0]))
    ∧ (∀ (wire : PeerID → BlockID → List Nat → Option (Option (List Tx)))
        (q : PeerID) (id : BlockID) (idxs : List Nat),
        wire q id idxs = none ∨ wire q id idxs = some none →
        chainServiceGetBlockTxs wire q id idxs = (none, []))
    ∧ (∀ (E : Env) (xtb : XThinnerBlock) (p : PeerID),
        (E.decodeMempoolXthinner xtb).2 ≠ [] →
        E.getBlockTxs p xtb.ID (E.decodeMempoolXthinner xtb).2 = none →
        (decodeXthinner E xtb p).2 = [Event.banscore p 34 0]) := by
  refine ⟨?_, ?_, ?_, ?_⟩
  · intro wire q id idxs txs evs h
    unfold chainServiceGetBlockTxs at h
    cases hw : wire q id idxs with
    | none => simp only [hw] at h; exact absurd h (by simp)
    | some r =>
      cases r with
      | none => simp only [hw] at h; exact absurd h (by simp)
      | some ts =>
        simp only [hw] at h
        by_cases hl : ts.length ≠ idxs.length
        · rw [if_pos hl] at h
          exact absurd h (by simp)
        · rw [if_neg hl] at h
          rw [Prod.mk.injEq] at h
          obtain ⟨h1, h2⟩ := h
          have hlen : ts.length = idxs.length := not_ne_iff.mp hl
          refine ⟨?_, h2.symm⟩
          rw [← Option.some.inj h1]
          exact hlen
  · intro wire q id idxs txs hw hne
    simp [chainServiceGetBlockTxs, hw, hne]
  · intro wire q id idxs h
    rcases h with h | h <;> simp [chainServiceGetBlockTxs, h]
  · intro E xtb p hmiss herr
    have hlen : 0 < (E.decodeMempoolXthinner xtb).2.length :=
      List.length_pos.mpr hmiss
    simp [decodeXthinner, hlen, herr]

/-- C3 (witness): the layered scoring at concrete inputs: a peer
answering with two transactions for a one-index request is banned +50
by the client; an error-code response is not banned by the client; and
the announcing peer 4, whose client call fails, is banned exactly +34
by the coordinator. -/
theorem decodeXthinner_originator_error_score_witness :
    chainServiceGetBlockTxs wireW3 5 7 [0] = (none, [Event.banscore 5 50 0])
    ∧ chainServiceGetBlockTxs wireErrResp 5 7 [0] = (none, [])
    ∧ (decodeXthinner envC3 xtbC 4).2 = [Event.banscore 4 34 0] := by
  obtain ⟨h1, h2, h3, h4⟩ := decodeXthinner_originator_error_score
  exact ⟨h2 wireW3 5 7 [0] [⟨1⟩, ⟨2⟩] rfl (by decide),
         h3 wireErrResp 5 7 [0] (Or.inr rfl),
         h4 envC3 xtbC 4 (by decide) (by decide)⟩

/-- The consensus waiter removes the resolved block from
`activeInventory` (for either status), provided every stored orphan has
a different block ID. -/
theorem waiter_inventory_removed {E : Env} {st : ServerState} {blk : Block}
    {status : ConsensusStatus}
    (horph : ∀ k oe, (k, oe) ∈ st.orphanBlocks → oe.blk.ID ≠ blk.ID) :
    hasKey blk.ID (consensusWaiter E st blk status).1.activeInventory = false := by
  cases hf : findReprocessOrphan st.orphanBlocks (blk.header.height + 1) with
  | none =>
    rw [consensusWaiter_none hf]
    simp [hasKey_eraseKey_self]
  | some o =>
    obtain ⟨k0, hk0, _⟩ := findReprocessOrphan_facts hf
    rw [consensusWaiter_some hf]
    by_contra hb
    rw [Bool.not_eq_false] at hb
    rcases processBlockHeld_inventory hb with h1 | h2
    · simp [hasKey_eraseKey_self] at h1
    · exact (horph k0 o hk0) h2.symm

/-- C6 (amended): every completed success-path run of `processBlock`
leaves the processed block in `activeInventory` and not in
`orphanBlocks` (the insertion and the orphan removal are two separate
lock scopes, so between them the block is transiently in both maps),
and consensus resolution removes the resolved block from
`activeInventory` when the stored orphans carry different IDs. -/
theorem processBlock_success_inventory_excludes_orphan (E : Env)
    (st st2 : ServerState) (blk : Block) (p : PeerID) (rc : Bool)
    (status : ConsensusStatus)
    (hok : (processBlock E st blk p rc).2.2 = .ok ())
    (horph : ∀ k oe, (k, oe) ∈ st2.orphanBlocks → oe.blk.ID ≠ blk.ID) :
    hasKey blk.ID (processBlock E st blk p rc).1.activeInventory = true
    ∧ hasKey blk.ID (processBlock E st blk p rc).1.orphanBlocks = false
    ∧ hasKey blk.ID (consensusWaiter E st2 blk status).1.activeInventory = false :=
  ⟨(processBlock_ok_state hok).1, (processBlock_ok_state hok).2,
   waiter_inventory_removed horph⟩

/-- C6 (witness): the amended statement at the concrete run that
accepts `blkA` while it is stored as an orphan. -/
theorem processBlock_success_inventory_excludes_orphan_witness :
    hasKey blkA.ID (processBlock envAccept stC6 blkA 7 false).1.activeInventory = true
    ∧ hasKey blkA.ID (processBlock envAccept stC6 blkA 7 false).1.orphanBlocks = false
    ∧ hasKey blkA.ID (consensusWaiter envAccept stEmpty blkA ConsensusStatus.rejected).1.activeInventory = false :=
  processBlock_success_inventory_excludes_orphan envAccept stC6 stEmpty blkA 7
    false ConsensusStatus.rejected (by decide)
    (by intro k oe hm; simp [stEmpty] at hm)

/-- C7: on a `RuleError` with `recheck = true` the relaying peer is
penalized exactly +34 behavioral and the error is returned; on a
`RuleError` that is neither `ErrInvalidTxRoot` nor `ErrDoesNotConnect`
with `recheck = false` the relaying peer is penalized exactly +101
behavioral and the error is returned. -/
theorem processBlock_ruleError_banscores (E : Env) (st : ServerState)
    (blk : Block) (p : PeerID) (k : RuleErrKind) :
    (E.checkConnectBlock blk = some (.ruleError k) →
      processBlock E st blk p true
        = (st, [Event.entered blk.ID true, Event.banscore p 34 0],
            .err (.blockCheck (.ruleError k))))
    ∧ (E.checkConnectBlock blk = some (.ruleError .otherRuleViolation) →
      processBlock E st blk p false
        = (st, [Event.entered blk.ID false, Event.banscore p 101 0],
            .err (.blockCheck (.ruleError .otherRuleViolation)))) := by
  constructor
  · intro hE
    simp [processBlock, processBlockR, hE]
  · intro hE
    simp [processBlock, hE]

/-- C7 (witness): both ban-score equations at a concrete rule-error
environment. -/
theorem processBlock_ruleError_banscores_witness :
    processBlock envC7 stEmpty blkA 3 true
      = (stEmpty, [Event.entered blkA.ID true, Event.banscore 3 34 0],
          .err (.blockCheck (.ruleError .otherRuleViolation)))
    ∧ processBlock envC7 stEmpty blkA 3 false
      = (stEmpty, [Event.entered blkA.ID false, Event.banscore 3 101 0],
          .err (.blockCheck (.ruleError .otherRuleViolation))) :=
  ⟨(processBlock_ruleError_banscores envC7 stEmpty blkA 3 .otherRuleViolation).1 rfl,
   (processBlock_ruleError_banscores envC7 stEmpty blkA 3 .otherRuleViolation).2 rfl⟩

/-- Writing one slot leaves the other slots unchanged. -/
theorem getD_set_ne {α : Type} (l : List α) {i j : Nat} (a d : α) (h : i ≠ j) :
    (l.set i a).getD j d = l.getD j d := by
  rw [List.getD_eq_getElem?_getD, List.getD_eq_getElem?_getD,
    List.getElem?_set_ne h]

/-- Writing a slot in range stores the value. -/
theorem getD_set_self {α : Type} (l : List α) {i : Nat} (a d : α)
    (h : i < l.length) : (l.set i a).getD i d = a := by
  have h' : i < (l.set i a).length := by rw [List.length_set]; exact h
  rw [List.getD_eq_getElem _ _ h', List.getElem_set_self]

/-- The patch loop preserves the transaction count. -/
theorem patchTxs_length {txs out : List Tx} {ms : List Nat} {rs : List Tx}
    (h : patchTxs txs ms rs = some out) : out.length = txs.length := by
  induction ms generalizing txs rs with
  | nil =>
    cases rs with
    | nil => simp [patchTxs] at h; subst h; rfl
    | cons r rs => simp [patchTxs] at h
  | cons m ms ih =>
    cases rs with
    | nil => simp [patchTxs] at h; subst h; rfl
    | cons r rs =>
      simp only [patchTxs] at h
      split at h
      · rw [ih h, List.length_set]
      · exact absurd h (by simp)

/-- The patch loop does not touch indices outside the missing list. -/
theorem patchTxs_getD_not_mem {txs out : List Tx} {ms : List Nat} {rs : List Tx}
    (h : patchTxs txs ms rs = some out) {i : Nat} (hi : i ∉ ms) (d : Tx) :
    out.getD i d = txs.getD i d := by
  induction ms generalizing txs rs with
  | nil =>
    cases rs with
    | nil => simp [patchTxs] at h; subst h; rfl
    | cons r rs => simp [patchTxs] at h
  | cons m ms ih =>
    cases rs with
    | nil => simp [patchTxs] at h; subst h; rfl
    | cons r rs =>
      simp only [patchTxs] at h
      split at h
      · have hi' : i ∉ ms := fun hc => hi (List.mem_cons_of_mem _ hc)
        have him : i ≠ m := fun hc => hi (hc ▸ List.mem_cons_self m ms)
        rw [ih h hi', getD_set_ne _ _ _ him.symm]
      · exact absurd h (by simp)

/-- The patch loop writes the j-th supplied transaction into the j-th
missing slot (positions preserved). -/
theorem patchTxs_getD_mem {txs out : List Tx} {ms : List Nat} {rs : List Tx}
    (hnd : ms.Nodup) (hlen : rs.length = ms.length)
    (h : patchTxs txs ms rs = some out) {j : Nat} (hj : j < ms.length) (d : Tx) :
    out.getD (ms.getD j 0) d = rs.getD j d := by
  induction ms generalizing txs rs j with
  | nil => simp at hj
  | cons m ms ih =>
    cases rs with
    | nil => simp at hlen
    | cons r rs =>
      simp only [patchTxs] at h
      split at h
      · rename_i hm
        cases j with
        | zero =>
          have hmnotin : m ∉ ms := (List.nodup_cons.mp hnd).1
          rw [List.getD_cons_zero, List.getD_cons_zero,
            patchTxs_getD_not_mem h hmnotin d, getD_set_self _ _ _ hm]
        | succ j' =>
          rw [List.getD_cons_succ, List.getD_cons_succ]
          exact ih (List.nodup_cons.mp hnd).2 (by simpa using hlen) h
            (by simpa using hj) 
      · exact absurd h (by simp)

/-- Characterization of the missing-index list computed by
`fetchBlockTxids`. -/
theorem missingIndices_mem_iff {txs : List Tx} {ids : List TxID} {i : Nat} :
    i ∈ missingIndices txs ids ↔
      i < txs.length ∧ (txs.getD i default).ID ≠ ids.getD i default := by
  simp [missingIndices, List.mem_filter, List.mem_range]

/-- The missing-index list has no duplicates (it filters a range). -/
theorem missingIndices_nodup (txs : List Tx) (ids : List TxID) :
    (missingIndices txs ids).Nodup :=
  List.Nodup.filter _ (List.nodup_range _)

/-- C8 (amended): whenever `fetchBlockTxids` returns a block without
error and the peer's `GetBlockTxs` response supplies, for each
mismatching index, a transaction whose TxID equals the announced txid
at that index (one per requested index), the transaction at every index
i of the returned block has TxID equal to the i-th entry of the txid
list obtained via `GetBlockTxids`.  (The code never verifies the
supplied transactions, so the hypothesis on the response is required —
see the counterexample.) -/
theorem fetchBlockTxids_order_matches_txids (E : Env) (blk out : Block)
    (p : PeerID) (txids : List TxID) (repl : List Tx)
    (htxids : E.getBlockTxids p blk.ID = some txids)
    (hlen : txids.length = blk.transactions.length)
    (hrepl : E.getBlockTxs p blk.ID (missingIndices blk.transactions txids) = some repl)
    (hrlen : repl.length = (missingIndices blk.transactions txids).length)
    (hids : ∀ j, j < repl.length →
      (repl.getD j default).ID
        = txids.getD ((missingIndices blk.transactions txids).getD j 0) default)
    (hok : fetchBlockTxids E (some blk) p = .ok out) :
    out.transactions.length = txids.length
    ∧ ∀ i, i < txids.length →
        (out.transactions.getD i default).ID = txids.getD i default := by
  simp only [fetchBlockTxids, htxids] at hok
  rw [if_neg (by omega : ¬txids.length ≠ blk.transactions.length)] at hok
  by_cases h0 : (missingIndices blk.transactions txids).length = 0
  · rw [if_pos h0] at hok
    exact absurd hok (by simp)
  · rw [if_neg h0] at hok
    simp only [hrepl] at hok
    cases hp : patchTxs blk.transactions (missingIndices blk.transactions txids) repl with
    | none =>
      simp only [hp] at hok
      exact absurd hok (by simp)
    | some newTxs =>
      simp only [hp] at hok
      injection hok with hok
      subst hok
      constructor
      · show newTxs.length = txids.length
        rw [patchTxs_length hp]
        exact hlen.symm
      · intro i hi
        have hitx : i < blk.transactions.length := hlen ▸ hi
        show (newTxs.getD i default).ID = txids.getD i default
        by_cases hm : i ∈ missingIndices blk.transactions txids
        · obtain ⟨j, hj, hji⟩ := List.mem_iff_getElem.mp hm
          have hjd : (missingIndices blk.transactions txids).getD j 0 = i := by
            rw [List.getD_eq_getElem _ _ hj]
            exact hji
          have hjr : j < repl.length := by rw [hrlen]; exact hj
          have hw := patchTxs_getD_mem (missingIndices_nodup _ _) hrlen hp hj
            (default : Tx)
          rw [hjd] at hw
          rw [hw, hids j hjr, hjd]
        · rw [patchTxs_getD_not_mem hp hm default]
          by_contra hne
          exact hm (missingIndices_mem_iff.mpr ⟨hitx, hne⟩)

/-- C8 (witness): the amended statement at a concrete repair in which
the peer announces txids `[5, 9]` and supplies the transaction with
ID 9 for the single mismatching index 1. -/
theorem fetchBlockTxids_order_matches_txids_witness :
    (Block.mk ⟨3, 300⟩ [⟨5⟩, ⟨9⟩]).transactions.length = ([5, 9] : List TxID).length
    ∧ ((Block.mk ⟨3, 300⟩ [⟨5⟩, ⟨9⟩]).transactions.getD 0 default).ID
        = ([5, 9] : List TxID).getD 0 default
    ∧ ((Block.mk ⟨3, 300⟩ [⟨5⟩, ⟨9⟩]).transactions.getD 1 default).ID
        = ([5, 9] : List TxID).getD 1 default := by
  have full := fetchBlockTxids_order_matches_txids envW8 blkW8
    (Block.mk ⟨3, 300⟩ [⟨5⟩, ⟨9⟩]) 3 [5, 9] [⟨9⟩] rfl (by decide) rfl (by decide)
    (by
      intro j hj
      cases j with
      | zero => decide
      | succ n => simp at hj)
    (by decide)
  exact ⟨full.1, full.2 0 (by decide), full.2 1 (by decide)⟩

/-- The patch loop succeeds whenever one transaction is supplied per
missing index and every missing index is in range. -/
theorem patchTxs_exists {txs : List Tx} {ms : List Nat} {rs : List Tx}
    (hlen : rs.length = ms.length) (hin : ∀ m ∈ ms, m < txs.length) :
    ∃ out, patchTxs txs ms rs = some out := by
  induction ms generalizing txs rs with
  | nil =>
    have hrs : rs = [] := List.length_eq_zero.mp (by simpa using hlen)
    subst hrs
    exact ⟨txs, rfl⟩
  | cons m ms ih =>
    cases rs with
    | nil => simp at hlen
    | cons r rs =>
      have hm : m < txs.length := hin m (List.mem_cons_self m ms)
      have hin' : ∀ m' ∈ ms, m' < (txs.set m r).length := by
        intro m' hm'
        rw [List.length_set]
        exact hin m' (List.mem_cons_of_mem _ hm')
      obtain ⟨out, hout⟩ := ih (by simpa using hlen) hin'
      refine ⟨out, ?_⟩
      simp only [patchTxs]
      rw [if_pos hm]
      exact hout

/-- The fallback loop of `decodeXthinner` over connected peers returns
a block with a nil error for every peer list, provided the supplied
index lists are in range and responses are length-correct. -/
theorem decodeTryPeers_ok (E : Env) (xtbID : BlockID) (blk : Block)
    (ms : List Nat) (hin : ∀ m ∈ ms, m < blk.transactions.length)
    (hclient : ∀ q txs, E.getBlockTxs q xtbID ms = some txs →
      txs.length = ms.length) :
    ∀ ps, ∃ b, decodeTryPeers E xtbID blk ms ps = .ok b := by
  intro ps
  induction ps with
  | nil => exact ⟨blk, rfl⟩
  | cons pid rest ih =>
    cases hg : E.getBlockTxs pid xtbID ms with
    | some txs =>
      obtain ⟨out, hout⟩ := patchTxs_exists (hclient pid txs hg) hin
      exact ⟨{ blk with transactions := out }, by simp [decodeTryPeers, hg, hout]⟩
    | none =>
      obtain ⟨b, hb⟩ := ih
      exact ⟨b, by simpa [decodeTryPeers, hg] using hb⟩

/-- Every wire-derived environment satisfies the chain-service client's
length guarantee: when `ChainService.GetBlockTxs` returns transactions,
there is exactly one per requested index (the wrong-length case is
turned into a ban plus an error return by the client). -/
theorem envOfWire_getBlockTxs_length (check : Block → Option BlockCheckError)
    (txidsOracle : PeerID → BlockID → Option (List TxID))
    (wire : PeerID → BlockID → List Nat → Option (Option (List Tx)))
    (ps : List PeerID) (decodeM : XThinnerBlock → Block × List Nat) :
    ∀ q id idxs txs,
      (envOfWire check txidsOracle wire ps decodeM).getBlockTxs q id idxs = some txs →
      txs.length = idxs.length := by
  intro q id idxs txs h
  simp only [envOfWire] at h
  unfold chainServiceGetBlockTxs at h
  cases hw : wire q id idxs with
  | none => simp only [hw] at h; exact absurd h (by simp)
  | some r =>
    cases r with
    | none => simp only [hw] at h; exact absurd h (by simp)
    | some ts =>
      simp only [hw] at h
      by_cases hl : ts.length ≠ idxs.length
      · rw [if_pos hl] at h
        exact absurd h (by simp)
      · rw [if_neg hl] at h
        simp only [Option.some.injEq] at h
        rw [← h]
        exact not_ne_iff.mp hl

/-- C9: the decode step never fails.  For every xthinner block and
every outcome of the repair RPCs — the collaborator contracts being:
`DecodeXthinner` returns missing indices into the reconstructed block
(spec, the mempool is outside the embedded sources), and the
chain-service client returns one transaction per requested index when
it succeeds (exactly what the in-source client enforces; every
wire-derived environment satisfies it, `envOfWire_getBlockTxs_length`)
— `decodeXthinner` returns a block together with a nil error, so the
error branch in `handleIncomingBlock` is unreachable and processing
always proceeds to `processBlock`. -/
theorem decodeXthinner_never_fails (E : Env) (xtb : XThinnerBlock) (p : PeerID)
    (hmiss : ∀ m ∈ (E.decodeMempoolXthinner xtb).2,
      m < (E.decodeMempoolXthinner xtb).1.transactions.length)
    (hclient : ∀ q txs,
      E.getBlockTxs q xtb.ID (E.decodeMempoolXthinner xtb).2 = some txs →
      txs.length = (E.decodeMempoolXthinner xtb).2.length) :
    ∃ b, (decodeXthinner E xtb p).1 = .ok b
      ∧ ∀ st, handleIncomingBlock E st xtb p
          = ((processBlock E st b p false).1,
             (decodeXthinner E xtb p).2 ++ (processBlock E st b p false).2.1,
             (processBlock E st b p false).2.2) := by
  have hok : ∃ b, (decodeXthinner E xtb p).1 = .ok b := by
    rcases hd : E.decodeMempoolXthinner xtb with ⟨blk0, ms⟩
    rw [hd] at hmiss hclient
    simp only [decodeXthinner, hd]
    by_cases h0 : 0 < ms.length
    · rw [if_pos h0]
      cases hg : E.getBlockTxs p xtb.ID ms with
      | some txs =>
        obtain ⟨out, hout⟩ := patchTxs_exists (hclient p txs hg) hmiss
        simp only [hg, hout]
        exact ⟨{ blk0 with transactions := out }, rfl⟩
      | none =>
        simp only [hg]
        exact decodeTryPeers_ok E xtb.ID blk0 ms hmiss hclient E.peers
    · rw [if_neg h0]
      exact ⟨blk0, rfl⟩
  obtain ⟨b, hb⟩ := hok
  refine ⟨b, hb, ?_⟩
  intro st
  have hsplit : ((decodeXthinner E xtb p).1, (decodeXthinner E xtb p).2)
      = decodeXthinner E xtb p := Prod.mk.eta
  rw [hb] at hsplit
  rw [handleIncomingBlock, ← hsplit]

/-- C9 (witness): the non-failure statement at a concrete environment
whose decode reports a missing index and whose repair RPCs all fail. -/
theorem decodeXthinner_never_fails_witness :
    ∃ b, (decodeXthinner envW9 xtbC 2).1 = .ok b
      ∧ ∀ st, handleIncomingBlock envW9 st xtbC 2
          = ((processBlock envW9 st b 2 false).1,
             (decodeXthinner envW9 xtbC 2).2 ++ (processBlock envW9 st b 2 false).2.1,
             (processBlock envW9 st b 2 false).2.2) :=
  decodeXthinner_never_fails envW9 xtbC 2 (by decide)
    (fun q txs h => by simp [envW9, envAccept] at h)

/-- C10 (amended): if the first TreasuryWhitelist entry parses
successfully, `BuildServer` dereferences the still-nil `policy` field
of the server while appending (a nil-pointer panic); a nonempty
whitelist therefore either panics or returns the first parse error, so
`BuildServer` can return a server only when the configured
TreasuryWhitelist is empty. -/
theorem buildServer_whitelist_first_valid_crashes
    (parse : String → Option BlockID) (s : String) (rest : List String)
    (w : BlockID) (hs : parse s = some w) :
    buildServerWhitelistStep parse (s :: rest) = GoResult.crashed
    ∧ ∀ l res, buildServerWhitelistStep parse l = GoResult.ok res → l = [] := by
  constructor
  · simp [buildServerWhitelistStep, treasuryWhitelistLoop, hs]
  · intro l res h
    cases l with
    | nil => rfl
    | cons a l' =>
      simp only [buildServerWhitelistStep, treasuryWhitelistLoop] at h
      cases hp : parse a with
      | none =>
        simp only [hp] at h
        exact absurd h (by simp)
      | some w' =>
        simp only [hp] at h
        exact absurd h (by simp)

/-- C10 (witness): the single-entry whitelist whose entry parses
reaches the nil dereference. -/
theorem buildServer_whitelist_first_valid_crashes_witness :
    buildServerWhitelistStep sampleParse ["ok"] = GoResult.crashed :=
  (buildServer_whitelist_first_valid_crashes sampleParse "ok" [] 1 (by decide)).1
